import Mathlib

/-!
A verification development for the `templator` helpers module
(`src/helpers.py`): an attribute-accessible dictionary (`Storage`),
thread-local storage (`ThreadedDict`), HTML escaping (`htmlquote`,
`websafe`), string coercion (`safestr`), response-header registration
(`header`) and a memoizing call cache (`Memoize`).

Python strings are modelled as `List Char`, byte strings as `List Nat`
(byte values), and the dynamically typed values the helpers receive as
the inductive `PyValue`.
-/

namespace Templator

/-- A model of the Python values that flow through the helpers: `None`,
booleans, integers, text strings, byte strings, iterators (objects with a
`__next__` method, modelled by the list of elements they will yield), and
materialised lists (which have no `__next__`). -/
inductive PyValue where
  | none
  | bool (b : Bool)
  | int (n : Int)
  | str (s : List Char)
  | bytes (bs : List Nat)
  | iter (elems : List PyValue)
  | list (elems : List PyValue)

/-- Python truthiness (`bool(v)`): `None` is falsy, numbers are falsy at
zero, strings/bytes/lists are falsy when empty.  A generic iterator
defines neither `__bool__` nor `__len__`, so it is always truthy in
Python, even when exhausted or empty. -/
def pyTruthy : PyValue → Bool
  | PyValue.none => false
  | PyValue.bool b => b
  | PyValue.int n => decide (n ≠ 0)
  | PyValue.str s => !s.isEmpty
  | PyValue.bytes bs => !bs.isEmpty
  | PyValue.iter _ => true
  | PyValue.list l => !l.isEmpty

/-- `hasattr(v, "__next__")`: true exactly for iterators. -/
def hasNext : PyValue → Bool
  | PyValue.iter _ => true
  | _ => false

/-- Python `str.replace(old, new)` for a one-character needle `c` (every
needle used by `htmlquote` is a single character): each occurrence of `c`
is replaced by `r`. -/
def replace (s : List Char) (c : Char) (r : List Char) : List Char :=
  match s with
  | [] => []
  | a :: rest => (if a = c then r else [a]) ++ replace rest c r

def escAmp : List Char := ['&', 'a', 'm', 'p', ';']
def escLt : List Char := ['&', 'l', 't', ';']
def escGt : List Char := ['&', 'g', 't', ';']
def escApos : List Char := ['&', '#', '3', '9', ';']
def escQuot : List Char := ['&', 'q', 'u', 'o', 't', ';']

/-- `htmlquote` from `src/helpers.py`: the five replacements applied in
sequence, ampersand first. -/
def htmlquote (text : List Char) : List Char :=
  replace (replace (replace (replace (replace text '&' escAmp) '<' escLt) '>' escGt) '\'' escApos) '"' escQuot

/-- Per-character escape table: what a single character contributes to the
output of `htmlquote`. -/
def escChar (c : Char) : List Char :=
  if c = '&' then escAmp
  else if c = '<' then escLt
  else if c = '>' then escGt
  else if c = '\'' then escApos
  else if c = '"' then escQuot
  else [c]

/-- Single-pass character-by-character escaping. -/
def escapeAll : List Char → List Char
  | [] => []
  | c :: rest => escChar c ++ escapeAll rest

theorem replace_append (xs ys : List Char) (c : Char) (r : List Char) :
    replace (xs ++ ys) c r = replace xs c r ++ replace ys c r := by
  induction xs with
  | nil => simp [replace]
  | cons a tl ih => simp [replace, ih]

theorem htmlquote_cons (c : Char) (s : List Char) :
    htmlquote (c :: s) = escChar c ++ htmlquote s := by
  have key : htmlquote (c :: s) =
      replace (replace (replace (replace (if c = '&' then escAmp else [c]) '<' escLt) '>' escGt) '\'' escApos) '"' escQuot
        ++ htmlquote s := by
    simp only [htmlquote, replace, replace_append]
  rw [key]
  congr 1
  by_cases h1 : c = '&'
  · subst h1; decide
  by_cases h2 : c = '<'
  · subst h2; decide
  by_cases h3 : c = '>'
  · subst h3; decide
  by_cases h4 : c = '\''
  · subst h4; decide
  by_cases h5 : c = '"'
  · subst h5; decide
  · simp [replace, escChar, h1, h2, h3, h4, h5]

theorem htmlquote_eq_escapeAll (s : List Char) : htmlquote s = escapeAll s := by
  induction s with
  | nil => rfl
  | cons c rest ih => rw [htmlquote_cons, ih]; rfl

theorem escapeAll_id (s : List Char)
    (h : ∀ c ∈ s, c ≠ '&' ∧ c ≠ '<' ∧ c ≠ '>' ∧ c ≠ '\'' ∧ c ≠ '"') :
    escapeAll s = s := by
  induction s with
  | nil => rfl
  | cons c rest ih =>
      have hc := h c (List.mem_cons_self c rest)
      have hrest : ∀ c ∈ rest, c ≠ '&' ∧ c ≠ '<' ∧ c ≠ '>' ∧ c ≠ '\'' ∧ c ≠ '"' :=
        fun x hx => h x (List.mem_cons_of_mem c hx)
      simp [escapeAll, escChar, hc.1, hc.2.1, hc.2.2.1, hc.2.2.2.1, hc.2.2.2.2, ih hrest]

/-- The Python exceptions raised by the helpers. -/
inductive PyError where
  | keyError (key : List Char)
  | attributeError (name : List Char)
  | valueError
  | unicodeDecodeError
deriving DecidableEq

def hexDigitChar (n : Nat) : Char :=
  if n < 10 then Char.ofNat (48 + n) else Char.ofNat (87 + n)

/-- One byte inside a Python `bytes` repr delimited by the quote
character with code `q`: backslash, the delimiter, tab, newline and
carriage return are backslash-escaped, printable ASCII is literal, and
everything else becomes a lowercase `\xhh` escape. -/
def byteEsc (q b : Nat) : List Char :=
  if b = 92 then ['\\', '\\']
  else if b = q then ['\\', Char.ofNat q]
  else if b = 9 then ['\\', 't']
  else if b = 10 then ['\\', 'n']
  else if b = 13 then ['\\', 'r']
  else if 32 ≤ b ∧ b ≤ 126 then [Char.ofNat b]
  else ['\\', 'x', hexDigitChar (b / 16), hexDigitChar (b % 16)]

/-- Python `repr` of a byte string (`str(bytes)` delegates to it): single
quotes by default, double quotes when the bytes contain a single quote
but no double quote. -/
def bytesRepr (bs : List Nat) : List Char :=
  if bs.contains 39 ∧ ¬bs.contains 34 then
    'b' :: '"' :: (bs.map (byteEsc 34)).flatten ++ ['"']
  else
    'b' :: '\'' :: (bs.map (byteEsc 39)).flatten ++ ['\'']

/-- One character inside a Python `str` repr delimited by quote `q`:
backslash, the delimiter, tab, newline and carriage return are escaped,
control characters become `\xhh`; all other characters are kept literal
(Python additionally escapes some non-printable code points above
U+007F; no claim exercises those). -/
def charEsc (q c : Char) : List Char :=
  if c = '\\' then ['\\', '\\']
  else if c = q then ['\\', q]
  else if c = Char.ofNat 9 then ['\\', 't']
  else if c = Char.ofNat 10 then ['\\', 'n']
  else if c = Char.ofNat 13 then ['\\', 'r']
  else if c.toNat < 32 ∨ c.toNat = 127 then
    ['\\', 'x', hexDigitChar (c.toNat / 16), hexDigitChar (c.toNat % 16)]
  else [c]

/-- Python `repr` of a text string, with the same quote heuristic as for
bytes. -/
def strRepr (s : List Char) : List Char :=
  if s.contains '\'' ∧ ¬s.contains '"' then
    '"' :: (s.map (charEsc '"')).flatten ++ ['"']
  else
    '\'' :: (s.map (charEsc '\'')).flatten ++ ['\'']

mutual
/-- Python `repr` on the modelled values.  Iterators are rendered by
Python as `<...-iterator object at 0x...>`, which depends on a memory
address; they are modelled by a fixed tag (no code path in the claims
reaches it: `safestr` never renders an iterator because iterators are
truthy). -/
def pyRepr : PyValue → List Char
  | PyValue.none => ['N', 'o', 'n', 'e']
  | PyValue.bool true => ['T', 'r', 'u', 'e']
  | PyValue.bool false => ['F', 'a', 'l', 's', 'e']
  | PyValue.int n => (toString n).data
  | PyValue.str s => strRepr s
  | PyValue.bytes bs => bytesRepr bs
  | PyValue.iter _ => ['<', 'i', 't', 'e', 'r', 'a', 't', 'o', 'r', '>']
  | PyValue.list l => '[' :: List.intercalate [',', ' '] (pyReprList l) ++ [']']
def pyReprList : List PyValue → List (List Char)
  | [] => []
  | v :: vs => pyRepr v :: pyReprList vs
end

/-- Python `str(v)`: the identity on text, `repr` on every other value
modelled here (`str` coincides with `repr` for `None`, booleans,
integers, byte strings and lists). -/
def render (v : PyValue) : List Char :=
  match v with
  | PyValue.str s => s
  | _ => pyRepr v

mutual
/-- `safestr` from `src/helpers.py`:
`if obj and hasattr(obj, "__next__"): return [safestr(i) for i in obj]`
`else: return str(obj)`.
For every non-iterator `v`, `hasNext v = false`, so the source's
condition is false and the result is `str(obj)`; that is the second arm.
For an iterator the condition is `pyTruthy … && true`, spelled out in
the first arm. -/
def safestr : PyValue → PyValue
  | PyValue.iter es =>
      if pyTruthy (PyValue.iter es) && hasNext (PyValue.iter es) then
        PyValue.list (safestrList es)
      else PyValue.str (render (PyValue.iter es))
  | v => PyValue.str (render v)
def safestrList : List PyValue → List PyValue
  | [] => []
  | v :: vs => safestr v :: safestrList vs
end

theorem safestrList_eq_map (es : List PyValue) : safestrList es = es.map safestr := by
  induction es with
  | nil => rfl
  | cons v vs ih => simp [safestrList, ih]

/-- Strict UTF-8 decoding of a byte sequence (the model of Python's
`bytes.decode("utf-8")`): rejects truncated sequences, stray or missing
continuation bytes, overlong encodings, surrogate code points and code
points above U+10FFFF. -/
def utf8Decode : List Nat → Option (List Char)
  | [] => Option.some []
  | b1 :: rest =>
    if b1 < 0x80 then
      (utf8Decode rest).map (fun cs => Char.ofNat b1 :: cs)
    else if 0xC2 ≤ b1 ∧ b1 ≤ 0xDF then
      match rest with
      | b2 :: rest2 =>
          if 0x80 ≤ b2 ∧ b2 < 0xC0 then
            (utf8Decode rest2).map (fun cs => Char.ofNat ((b1 - 0xC0) * 0x40 + (b2 - 0x80)) :: cs)
          else Option.none
      | [] => Option.none
    else if 0xE0 ≤ b1 ∧ b1 ≤ 0xEF then
      match rest with
      | b2 :: b3 :: rest3 =>
          if (0x80 ≤ b2 ∧ b2 < 0xC0) ∧ (0x80 ≤ b3 ∧ b3 < 0xC0)
              ∧ (b1 = 0xE0 → 0xA0 ≤ b2) ∧ (b1 = 0xED → b2 ≤ 0x9F) then
            (utf8Decode rest3).map
              (fun cs => Char.ofNat ((b1 - 0xE0) * 0x1000 + (b2 - 0x80) * 0x40 + (b3 - 0x80)) :: cs)
          else Option.none
      | _ => Option.none
    else if 0xF0 ≤ b1 ∧ b1 ≤ 0xF4 then
      match rest with
      | b2 :: b3 :: b4 :: rest4 =>
          if (0x80 ≤ b2 ∧ b2 < 0xC0) ∧ (0x80 ≤ b3 ∧ b3 < 0xC0) ∧ (0x80 ≤ b4 ∧ b4 < 0xC0)
              ∧ (b1 = 0xF0 → 0x90 ≤ b2) ∧ (b1 = 0xF4 → b2 ≤ 0x8F) then
            (utf8Decode rest4).map
              (fun cs =>
                Char.ofNat ((b1 - 0xF0) * 0x40000 + (b2 - 0x80) * 0x1000 + (b3 - 0x80) * 0x40 + (b4 - 0x80)) :: cs)
          else Option.none
      | _ => Option.none
    else Option.none

/-- `websafe` from `src/helpers.py`: `None` becomes empty text, byte
strings are decoded as UTF-8 (raising `UnicodeDecodeError` on invalid
bytes, modelled by the error case), non-text values are rendered via
`str`, and `htmlquote` is applied to the resulting text. -/
def websafe (val : PyValue) : Except PyError (List Char) :=
  match val with
  | PyValue.none => Except.ok []
  | PyValue.bytes bs =>
      match utf8Decode bs with
      | Option.some s => Except.ok (htmlquote s)
      | Option.none => Except.error PyError.unicodeDecodeError
  | PyValue.str s => Except.ok (htmlquote s)
  | v => Except.ok (htmlquote (render v))

theorem htmlquote_id (s : List Char)
    (h : ∀ c ∈ s, c ≠ '&' ∧ c ≠ '<' ∧ c ≠ '>' ∧ c ≠ '\'' ∧ c ≠ '"') :
    htmlquote s = s := by
  rw [htmlquote_eq_escapeAll]; exact escapeAll_id s h

/-- C2 counterexample: `safestr` does not decode byte strings as UTF-8.
On the byte string `b"hello"` it returns the textual rendering
`b'hello'` (Python's `str` of a bytes object), which differs from the
UTF-8 decoding `hello`. -/
theorem safestr_bytes_not_utf8_decoded :
    safestr (PyValue.bytes [104, 101, 108, 108, 111]) =
      PyValue.str ['b', '\'', 'h', 'e', 'l', 'l', 'o', '\'']
    ∧ (['b', '\'', 'h', 'e', 'l', 'l', 'o', '\''] : List Char) ≠ ['h', 'e', 'l', 'l', 'o'] :=
  ⟨rfl, by decide⟩

/-- C2 (amended): `safestr` on a lazy/pull sequence (an object with
`__next__`, which is always truthy in Python, even when empty) returns
the ordered sequence of the individually coerced elements; on every
other value it returns the standard textual rendering — in particular a
byte string is rendered in its `b'...'` form, not decoded as UTF-8. -/
theorem safestr_cases_amended :
    (∀ es, pyTruthy (PyValue.iter es) = true
      ∧ safestr (PyValue.iter es) = PyValue.list (es.map safestr))
    ∧ (∀ v, hasNext v = false → safestr v = PyValue.str (render v))
    ∧ render (PyValue.bytes [104, 101, 108, 108, 111]) =
        ['b', '\'', 'h', 'e', 'l', 'l', 'o', '\''] := by
  refine ⟨fun es => ⟨rfl, ?_⟩, fun v hv => ?_, rfl⟩
  · simp [safestr, pyTruthy, hasNext, safestrList_eq_map]
  · cases v with
    | iter es => simp [hasNext] at hv
    | none => rfl
    | bool b => rfl
    | int n => rfl
    | str s => rfl
    | bytes bs => rfl
    | list l => rfl

/-- C2 witness: the non-iterator case of the amended claim at the
integer `2`. -/
theorem safestr_cases_amended_witness :
    hasNext (PyValue.int 2) = false
    ∧ safestr (PyValue.int 2) = PyValue.str (render (PyValue.int 2)) :=
  ⟨rfl, safestr_cases_amended.2.1 (PyValue.int 2) rfl⟩

/-- C6: `websafe` returns empty text on `None`, UTF-8-decodes byte
strings and html-quotes the result, html-quotes text directly, renders
any other value as text before quoting — so on success the result is
always text — and leaves text without HTML-sensitive characters
unchanged, in particular the single character U+203D. -/
theorem websafe_always_text :
    websafe PyValue.none = Except.ok []
    ∧ (∀ bs cs, utf8Decode bs = Option.some cs →
        websafe (PyValue.bytes bs) = Except.ok (htmlquote cs))
    ∧ (∀ s, websafe (PyValue.str s) = Except.ok (htmlquote s))
    ∧ (∀ v, v ≠ PyValue.none → (∀ bs, v ≠ PyValue.bytes bs) → (∀ s, v ≠ PyValue.str s) →
        websafe v = Except.ok (htmlquote (render v)))
    ∧ (∀ s, (∀ c ∈ s, c ≠ '&' ∧ c ≠ '<' ∧ c ≠ '>' ∧ c ≠ '\'' ∧ c ≠ '"') →
        websafe (PyValue.str s) = Except.ok s)
    ∧ websafe (PyValue.str [Char.ofNat 0x203D]) = Except.ok [Char.ofNat 0x203D] := by
  refine ⟨rfl, fun bs cs h => ?_, fun s => rfl, fun v hn hb hs => ?_, fun s h => ?_, ?_⟩
  · simp [websafe, h]
  · cases v with
    | none => exact absurd rfl hn
    | bytes bs => exact absurd rfl (hb bs)
    | str s => exact absurd rfl (hs s)
    | bool b => rfl
    | int n => rfl
    | iter es => rfl
    | list l => rfl
  · simp [websafe, htmlquote_id s h]
  · rfl

/-- C6 witness: the byte-string case at the UTF-8 encoding of U+203D and
the unchanged-text case at that character. -/
theorem websafe_always_text_witness :
    (utf8Decode [0xE2, 0x80, 0xBD] = Option.some [Char.ofNat 0x203D]
      ∧ websafe (PyValue.bytes [0xE2, 0x80, 0xBD]) = Except.ok (htmlquote [Char.ofNat 0x203D]))
    ∧ ((∀ c ∈ [Char.ofNat 0x203D], c ≠ '&' ∧ c ≠ '<' ∧ c ≠ '>' ∧ c ≠ '\'' ∧ c ≠ '"')
      ∧ websafe (PyValue.str [Char.ofNat 0x203D]) = Except.ok [Char.ofNat 0x203D]) :=
  ⟨⟨by decide, websafe_always_text.2.1 [0xE2, 0x80, 0xBD] [Char.ofNat 0x203D] (by decide)⟩,
   ⟨by decide, websafe_always_text.2.2.2.2.1 [Char.ofNat 0x203D] (by decide)⟩⟩

/-- C1: `htmlquote` applies the five substitutions with `&` first, so on
the documented input `<'&">` it produces `&lt;&#39;&amp;&quot;&gt;`, and
in general it acts as a single left-to-right pass over the characters
(`escapeAll`), so an ampersand introduced by a later substitution is
never re-escaped. -/
theorem htmlquote_table_and_single_pass :
    htmlquote ['<', '\'', '&', '"', '>'] =
      ['&', 'l', 't', ';', '&', '#', '3', '9', ';', '&', 'a', 'm', 'p', ';', '&', 'q', 'u', 'o', 't', ';', '&', 'g', 't', ';']
    ∧ ∀ s, htmlquote s = escapeAll s :=
  ⟨by decide, htmlquote_eq_escapeAll⟩

/-- Lookup in an insertion-ordered association list (the model of a
Python `dict`). -/
def alookup {κ β : Type} [DecidableEq κ] : List (κ × β) → κ → Option β
  | [], _ => Option.none
  | (k', v) :: rest, k => if k' = k then Option.some v else alookup rest k

/-- `d[k] = v` on a Python `dict`: replaces in place when the key is
present, appends otherwise. -/
def aupdate {κ β : Type} [DecidableEq κ] : List (κ × β) → κ → β → List (κ × β)
  | [], k, v => [(k, v)]
  | (k', v') :: rest, k, v =>
      if k' = k then (k, v) :: rest else (k', v') :: aupdate rest k v

/-- `del d[k]` on a Python `dict`, for a key known to be present. -/
def aerase {κ β : Type} [DecidableEq κ] : List (κ × β) → κ → List (κ × β)
  | [], _ => []
  | (k', v') :: rest, k => if k' = k then rest else (k', v') :: aerase rest k

theorem alookup_aupdate_self {κ β : Type} [DecidableEq κ]
    (l : List (κ × β)) (k : κ) (v : β) :
    alookup (aupdate l k v) k = Option.some v := by
  induction l with
  | nil => simp [alookup, aupdate]
  | cons p rest ih =>
      obtain ⟨k', v'⟩ := p
      by_cases h : k' = k
      · subst h; simp [alookup, aupdate]
      · simp [alookup, aupdate, h, ih]

/-- The contents of a `Storage` object: its underlying `dict`. -/
def SMap : Type := List (List Char × PyValue)

/-- `Storage.__getitem__` (inherited from `dict`): `KeyError` when the
key is absent. -/
def Storage.getitem (d : SMap) (k : List Char) : Except PyError PyValue :=
  match alookup d k with
  | Option.some v => Except.ok v
  | Option.none => Except.error (PyError.keyError k)

/-- `Storage.__getattr__`: `try: return self[key] except KeyError as k:
raise AttributeError(k)`. -/
def Storage.getattr (d : SMap) (k : List Char) : Except PyError PyValue :=
  match Storage.getitem d k with
  | Except.ok v => Except.ok v
  | Except.error (PyError.keyError key) => Except.error (PyError.attributeError key)
  | Except.error e => Except.error e

/-- `Storage.__setitem__` (inherited from `dict`). -/
def Storage.setitem (d : SMap) (k : List Char) (v : PyValue) : SMap := aupdate d k v

/-- `Storage.__setattr__`: `self[key] = value`. -/
def Storage.setattr (d : SMap) (k : List Char) (v : PyValue) : SMap :=
  Storage.setitem d k v

/-- `Storage.__delitem__` (inherited from `dict`): `KeyError` when the
key is absent. -/
def Storage.delitem (d : SMap) (k : List Char) : Except PyError SMap :=
  match alookup d k with
  | Option.some _ => Except.ok (aerase d k)
  | Option.none => Except.error (PyError.keyError k)

/-- `Storage.__delattr__`: `try: del self[key] except KeyError as k:
raise AttributeError(k)`. -/
def Storage.delattr (d : SMap) (k : List Char) : Except PyError SMap :=
  match Storage.delitem d k with
  | Except.ok d' => Except.ok d'
  | Except.error (PyError.keyError key) => Except.error (PyError.attributeError key)
  | Except.error e => Except.error e

/-- C5: on a `Storage` object, member-style read/write/delete agree with
the map operations on the same key, and an absent key makes member-style
read and delete fail with `AttributeError` carrying the key name — while
the map operation itself fails with the native `KeyError`. -/
theorem storage_attr_map_equiv :
    ∀ (d : SMap) (k : List Char) (v : PyValue),
      Storage.setattr d k v = Storage.setitem d k v
      ∧ (∀ u, alookup d k = Option.some u →
          Storage.getattr d k = Except.ok u ∧ Storage.getitem d k = Except.ok u
          ∧ Storage.delattr d k = Except.ok (aerase d k)
          ∧ Storage.delitem d k = Except.ok (aerase d k))
      ∧ (alookup d k = Option.none →
          Storage.getattr d k = Except.error (PyError.attributeError k)
          ∧ Storage.delattr d k = Except.error (PyError.attributeError k)
          ∧ Storage.getitem d k = Except.error (PyError.keyError k)
          ∧ Storage.delitem d k = Except.error (PyError.keyError k)) := by
  intro d k v
  refine ⟨rfl, fun u hu => ?_, fun hn => ?_⟩
  · simp [Storage.getattr, Storage.getitem, Storage.delattr, Storage.delitem, hu]
  · simp [Storage.getattr, Storage.getitem, Storage.delattr, Storage.delitem, hn]

/-- C5 witness: a one-entry `Storage` at a present key `a` and an absent
key `b`. -/
theorem storage_attr_map_equiv_witness :
    (alookup ([(['a'], PyValue.int 1)] : SMap) ['a'] = Option.some (PyValue.int 1)
      ∧ Storage.getattr [(['a'], PyValue.int 1)] ['a'] = Except.ok (PyValue.int 1))
    ∧ (alookup ([(['a'], PyValue.int 1)] : SMap) ['b'] = Option.none
      ∧ Storage.getattr [(['a'], PyValue.int 1)] ['b'] =
          Except.error (PyError.attributeError ['b'])) :=
  ⟨⟨rfl, ((storage_attr_map_equiv [(['a'], PyValue.int 1)] ['a'] PyValue.none).2.1
      (PyValue.int 1) rfl).1⟩,
   ⟨rfl, ((storage_attr_map_equiv [(['a'], PyValue.int 1)] ['b'] PyValue.none).2.2 rfl).1⟩⟩

/-- Python `needle in v` for a one-character needle `c` (the source only
tests the one-character strings `"\n"` and `"\r"`): substring containment
on text, element membership on lists (a list element equals the
one-character string `[c]` only when it is that text).  `safestr` only
ever returns text or a list, so no other case is reachable from
`header`. -/
def pyIn1 (c : Char) (v : PyValue) : Bool :=
  match v with
  | PyValue.str s => s.contains c
  | PyValue.list l =>
      l.any (fun e => match e with
        | PyValue.str s => decide (s = [c])
        | _ => false)
  | _ => false

/-- Python `v.lower()`, with the text-lowercasing function `low` a
parameter of the model: Python's `str.lower()` implements the full
Unicode lowercase mapping (which can even change a string's length),
and no fixed `Char → Char` table reproduces it faithfully, so the
duplicate-scan theorems are stated for an arbitrary `low` and therefore
hold in particular at the interpreter's actual mapping.  On a non-text
value `.lower()` raises `AttributeError`, modelled by `Option.none`. -/
def pyLowerWith (low : List Char → List Char) : PyValue → Option (List Char)
  | PyValue.str s => Option.some (low s)
  | _ => Option.none

inductive ScanOut where
  | found
  | notFound
  | attrErr
deriving DecidableEq

/-- The duplicate scan of `header`:
`for h, v in ctx.headers: if h.lower() == hdr.lower(): return`,
parameterised by the lowercasing function `low`.  `attrErr` models the
`AttributeError` Python raises when `.lower()` is called on a non-text
header name. -/
def scanHeadersWith (low : List Char → List Char) :
    List (PyValue × PyValue) → PyValue → ScanOut
  | [], _ => ScanOut.notFound
  | (h, _) :: rest, hdr =>
      match pyLowerWith low h, pyLowerWith low hdr with
      | Option.some lh, Option.some lt =>
          if lh = lt then ScanOut.found else scanHeadersWith low rest hdr
      | _, _ => ScanOut.attrErr

/-- `header` from `src/helpers.py`, with the calling thread's
`ctx.headers` passed as explicit state and the lowercasing function of
the duplicate scan passed as the parameter `low`.  Both arguments are
coerced with `safestr`; a coerced value containing `\n` or `\r` raises
`ValueError` before anything is appended; `unique is True` is an
identity test against the `True` singleton, modelled by matching the
constructor `PyValue.bool true`; when the scan finds a match under
`low` the call returns without appending, otherwise the pair is
appended. -/
def headerWith (low : List Char → List Char) (hdr value unique : PyValue)
    (headers : List (PyValue × PyValue)) :
    Option PyError × List (PyValue × PyValue) :=
  let h := safestr hdr
  let v := safestr value
  if pyIn1 '\n' h || pyIn1 '\r' h || pyIn1 '\n' v || pyIn1 '\r' v then
    (Option.some PyError.valueError, headers)
  else
    match unique with
    | PyValue.bool true =>
        match scanHeadersWith low headers h with
        | ScanOut.found => (Option.none, headers)
        | ScanOut.attrErr =>
            (Option.some (PyError.attributeError ['l', 'o', 'w', 'e', 'r']), headers)
        | ScanOut.notFound => (Option.none, headers ++ [(h, v)])
    | _ => (Option.none, headers ++ [(h, v)])

/-- `header` at one concrete lowercasing function (character-wise ASCII
`Char.toLower`).  The theorems stated about this instantiation — the
CRLF guard, which fires before the scan, and the `unique is True`
identity test, which bypasses the scan — do not depend on which `low`
is used; the case-insensitivity theorem is stated about `headerWith`
for every `low`. -/
def header (hdr value unique : PyValue) (headers : List (PyValue × PyValue)) :
    Option PyError × List (PyValue × PyValue) :=
  headerWith (List.map Char.toLower) hdr value unique headers

/-- C3: `header` raises the invalid-header `ValueError` exactly when the
coerced name or the coerced value contains a line feed or carriage
return, and in that case the headers sequence is left unchanged. -/
theorem header_invalid_iff_crlf :
    ∀ (hdr value unique : PyValue) (headers : List (PyValue × PyValue)),
      ((header hdr value unique headers).1 = Option.some PyError.valueError
        ↔ (pyIn1 '\n' (safestr hdr) || pyIn1 '\r' (safestr hdr)
            || pyIn1 '\n' (safestr value) || pyIn1 '\r' (safestr value)) = true)
      ∧ ((header hdr value unique headers).1 = Option.some PyError.valueError →
          (header hdr value unique headers).2 = headers) := by
  intro hdr value unique headers
  by_cases hc : (pyIn1 '\n' (safestr hdr) || pyIn1 '\r' (safestr hdr)
      || pyIn1 '\n' (safestr value) || pyIn1 '\r' (safestr value)) = true
  · constructor
    · simp [header, headerWith, hc]
    · intro _; simp [header, headerWith, hc]
  · simp only [Bool.not_eq_true] at hc
    have hmain : ∀ r, header hdr value unique headers = r →
        r.1 ≠ Option.some PyError.valueError := by
      intro r hr
      simp only [header, headerWith, hc, Bool.false_eq_true, if_false] at hr
      cases unique with
      | bool b =>
          cases b with
          | true =>
              cases hs : scanHeadersWith (List.map Char.toLower) headers (safestr hdr) <;>
                simp [hs] at hr <;> simp [← hr]
          | false => simp at hr; simp [← hr]
      | none => simp at hr; simp [← hr]
      | int n => simp at hr; simp [← hr]
      | str s => simp at hr; simp [← hr]
      | bytes bs => simp at hr; simp [← hr]
      | iter es => simp at hr; simp [← hr]
      | list l => simp at hr; simp [← hr]
    constructor
    · simp only [hc, Bool.false_eq_true, iff_false]
      exact hmain (header hdr value unique headers) rfl
    · intro habs
      exact absurd habs (hmain (header hdr value unique headers) rfl)

/-- C3 witness: a header name containing `\n` is rejected and nothing is
appended to an empty headers sequence. -/
theorem header_invalid_iff_crlf_witness :
    (header (PyValue.str ['X', '\n']) (PyValue.str ['v']) (PyValue.bool false) []).1 =
      Option.some PyError.valueError
    ∧ (header (PyValue.str ['X', '\n']) (PyValue.str ['v']) (PyValue.bool false) []).2 = [] :=
  ⟨(header_invalid_iff_crlf (PyValue.str ['X', '\n']) (PyValue.str ['v'])
      (PyValue.bool false) []).1.mpr (by decide),
   (header_invalid_iff_crlf (PyValue.str ['X', '\n']) (PyValue.str ['v'])
      (PyValue.bool false) []).2
     ((header_invalid_iff_crlf (PyValue.str ['X', '\n']) (PyValue.str ['v'])
        (PyValue.bool false) []).1.mpr (by decide))⟩

/-- C10: whenever `unique` is any value other than the boolean `True`
(e.g. the integer `2`), `header` skips the duplicate scan and appends
unconditionally; only `unique is True` triggers duplicate suppression. -/
theorem header_nonbool_unique_appends :
    ∀ (hdr value u : PyValue) (headers : List (PyValue × PyValue)),
      pyTruthy u = true → u ≠ PyValue.bool true →
      (pyIn1 '\n' (safestr hdr) || pyIn1 '\r' (safestr hdr)
        || pyIn1 '\n' (safestr value) || pyIn1 '\r' (safestr value)) = false →
      header hdr value u headers =
        (Option.none, headers ++ [(safestr hdr, safestr value)]) := by
  intro hdr value u headers ht hne hcond
  simp only [header, headerWith, hcond, Bool.false_eq_true, if_false]

/-- C10 witness: `unique = 2` appends even though a header of the same
name (differing only in case) is already present. -/
theorem header_nonbool_unique_appends_witness :
    pyTruthy (PyValue.int 2) = true
    ∧ header (PyValue.str ['X']) (PyValue.str ['v']) (PyValue.int 2)
        [(PyValue.str ['x'], PyValue.str ['1'])] =
      (Option.none,
        [(PyValue.str ['x'], PyValue.str ['1']), (PyValue.str ['X'], PyValue.str ['v'])]) :=
  ⟨rfl,
   header_nonbool_unique_appends (PyValue.str ['X']) (PyValue.str ['v']) (PyValue.int 2)
     [(PyValue.str ['x'], PyValue.str ['1'])] rfl
     (fun h => PyValue.noConfusion h) (by decide)⟩

theorem safestr_str (s : List Char) : safestr (PyValue.str s) = PyValue.str s := rfl

theorem pyIn1_str (c : Char) (s : List Char) :
    pyIn1 c (PyValue.str s) = s.contains c := rfl

/-- All names in a headers sequence are text (as the spec documents for
`ctx.headers`). -/
def strNamed (headers : List (PyValue × PyValue)) : Prop :=
  ∀ p ∈ headers, ∃ hs, p.1 = PyValue.str hs

/-- How many entries of a headers sequence carry a text name whose
lowercasing under `low` is `ls`. -/
def countNameWith (low : List Char → List Char) (ls : List Char)
    (headers : List (PyValue × PyValue)) : Nat :=
  headers.countP (fun p =>
    match p.1 with
    | PyValue.str h => decide (low h = ls)
    | _ => false)

theorem scanHeadersWith_cons_str (low : List Char → List Char) (hs0 : List Char)
    (v0 : PyValue) (rest : List (PyValue × PyValue)) (s : List Char) :
    scanHeadersWith low ((PyValue.str hs0, v0) :: rest) (PyValue.str s) =
      if low hs0 = low s then ScanOut.found
      else scanHeadersWith low rest (PyValue.str s) := rfl

theorem scan_found_iff (low : List Char → List Char) (s : List Char)
    (headers : List (PyValue × PyValue)) (h : strNamed headers) :
    scanHeadersWith low headers (PyValue.str s) = ScanOut.found ↔
      ∃ p ∈ headers, ∃ hs, p.1 = PyValue.str hs ∧ low hs = low s := by
  induction headers with
  | nil => simp [scanHeadersWith]
  | cons p rest ih =>
      obtain ⟨h0, v0⟩ := p
      obtain ⟨hs0, hp⟩ := h (h0, v0) (List.mem_cons_self _ _)
      simp only at hp
      subst hp
      have hrest : strNamed rest := fun q hq => h q (List.mem_cons_of_mem _ hq)
      rw [scanHeadersWith_cons_str]
      by_cases heq : low hs0 = low s
      · simp only [heq, if_pos]
        constructor
        · intro _
          exact ⟨(PyValue.str hs0, v0), List.mem_cons_self _ _, hs0, rfl, heq⟩
        · intro _; trivial
      · simp only [heq, if_neg, not_false_iff]
        rw [ih hrest]
        constructor
        · rintro ⟨q, hq, hs, hq1, hq2⟩
          exact ⟨q, List.mem_cons_of_mem _ hq, hs, hq1, hq2⟩
        · rintro ⟨q, hq, hs, hq1, hq2⟩
          rcases List.mem_cons.mp hq with hhead | htail
          · subst hhead
            simp only at hq1
            cases hq1
            exact absurd hq2 heq
          · exact ⟨q, htail, hs, hq1, hq2⟩

theorem countNameWith_cons_str (low : List Char → List Char) (ls hs0 : List Char)
    (v0 : PyValue) (rest : List (PyValue × PyValue)) :
    countNameWith low ls ((PyValue.str hs0, v0) :: rest) =
      (if low hs0 = ls then 1 else 0) + countNameWith low ls rest := by
  by_cases heq : low hs0 = ls <;>
    simp [countNameWith, List.countP_cons, heq, Nat.add_comm]

theorem countNameWith_append (low : List Char → List Char) (ls : List Char)
    (l1 l2 : List (PyValue × PyValue)) :
    countNameWith low ls (l1 ++ l2) = countNameWith low ls l1 + countNameWith low ls l2 := by
  simp [countNameWith, List.countP_append]

theorem scan_notFound (low : List Char → List Char) (s : List Char)
    (headers : List (PyValue × PyValue)) (h : strNamed headers)
    (hc : countNameWith low (low s) headers = 0) :
    scanHeadersWith low headers (PyValue.str s) = ScanOut.notFound := by
  induction headers with
  | nil => rfl
  | cons p rest ih =>
      obtain ⟨h0, v0⟩ := p
      obtain ⟨hs0, hp⟩ := h (h0, v0) (List.mem_cons_self _ _)
      simp only at hp
      subst hp
      have hrest : strNamed rest := fun q hq => h q (List.mem_cons_of_mem _ hq)
      rw [countNameWith_cons_str] at hc
      by_cases heq : low hs0 = low s
      · rw [if_pos heq] at hc; omega
      · rw [if_neg heq] at hc
        rw [scanHeadersWith_cons_str, if_neg heq]
        exact ih hrest (by omega)

theorem scan_append_skip (low : List Char → List Char)
    (l1 l2 : List (PyValue × PyValue)) (s : List Char)
    (h : strNamed l1) (hc : countNameWith low (low s) l1 = 0) :
    scanHeadersWith low (l1 ++ l2) (PyValue.str s) =
      scanHeadersWith low l2 (PyValue.str s) := by
  induction l1 with
  | nil => rfl
  | cons p rest ih =>
      obtain ⟨h0, v0⟩ := p
      obtain ⟨hs0, hp⟩ := h (h0, v0) (List.mem_cons_self _ _)
      simp only at hp
      subst hp
      have hrest : strNamed rest := fun q hq => h q (List.mem_cons_of_mem _ hq)
      rw [countNameWith_cons_str] at hc
      by_cases heq : low hs0 = low s
      · rw [if_pos heq] at hc; omega
      · rw [if_neg heq] at hc
        rw [List.cons_append, scanHeadersWith_cons_str, if_neg heq]
        exact ih hrest (by omega)

/-- C8: with `unique = True`, `header` scans the current headers
case-insensitively — names compared through the language's lowercasing
function — and is a no-op when a same-named header (in any case)
already exists; consequently two `unique = True` calls whose names
differ only in case leave exactly one entry for that name.  Stated for
every lowercasing function `low`, so it holds in particular at Python's
full-Unicode `str.lower()`. -/
theorem header_unique_case_insensitive :
    ∀ (low : List Char → List Char) (s : List Char) (value : PyValue)
      (headers : List (PyValue × PyValue)),
      strNamed headers →
      s.contains '\n' = false → s.contains '\r' = false →
      (pyIn1 '\n' (safestr value) || pyIn1 '\r' (safestr value)) = false →
      ((∃ p ∈ headers, ∃ hs, p.1 = PyValue.str hs ∧ low hs = low s) →
        headerWith low (PyValue.str s) value (PyValue.bool true) headers =
          (Option.none, headers))
      ∧ (∀ (t : List Char) (value2 : PyValue),
          low s = low t →
          t.contains '\n' = false → t.contains '\r' = false →
          (pyIn1 '\n' (safestr value2) || pyIn1 '\r' (safestr value2)) = false →
          countNameWith low (low s) headers = 0 →
          countNameWith low (low s)
            ((headerWith low (PyValue.str t) value2 (PyValue.bool true)
              ((headerWith low (PyValue.str s) value (PyValue.bool true) headers).2)).2) = 1)
    := by
  intro low s value headers hnamed hn hr hv
  have hcond : (pyIn1 '\n' (PyValue.str s) || pyIn1 '\r' (PyValue.str s)
      || pyIn1 '\n' (safestr value) || pyIn1 '\r' (safestr value)) = false := by
    simp only [pyIn1_str, hn, hr, Bool.false_or]
    exact hv
  constructor
  · intro hex
    have hfound : scanHeadersWith low headers (PyValue.str s) = ScanOut.found :=
      (scan_found_iff low s headers hnamed).mpr hex
    simp only [headerWith, safestr_str, hcond, Bool.false_eq_true, if_false, hfound]
  · intro t value2 hlow hn2 hr2 hv2 hcount
    have hcond2 : (pyIn1 '\n' (PyValue.str t) || pyIn1 '\r' (PyValue.str t)
        || pyIn1 '\n' (safestr value2) || pyIn1 '\r' (safestr value2)) = false := by
      simp only [pyIn1_str, hn2, hr2, Bool.false_or]
      exact hv2
    have hnot : scanHeadersWith low headers (PyValue.str s) = ScanOut.notFound :=
      scan_notFound low s headers hnamed hcount
    have h1 : headerWith low (PyValue.str s) value (PyValue.bool true) headers =
        (Option.none, headers ++ [(PyValue.str s, safestr value)]) := by
      simp only [headerWith, safestr_str, hcond, Bool.false_eq_true, if_false, hnot]
    rw [h1]
    have hcount_t : countNameWith low (low t) headers = 0 := by
      rw [← hlow]; exact hcount
    have hscan2 : scanHeadersWith low (headers ++ [(PyValue.str s, safestr value)])
        (PyValue.str t) = ScanOut.found := by
      rw [scan_append_skip low headers _ t hnamed hcount_t,
        scanHeadersWith_cons_str, if_pos hlow]
    have h2 : headerWith low (PyValue.str t) value2 (PyValue.bool true)
        (headers ++ [(PyValue.str s, safestr value)]) =
        (Option.none, headers ++ [(PyValue.str s, safestr value)]) := by
      simp only [headerWith, safestr_str, hcond2, Bool.false_eq_true, if_false, hscan2]
    rw [h2, countNameWith_append, hcount, countNameWith_cons_str]
    simp [countNameWith]

/-- C8 witness: at the lowercasing function mapping `Char.toLower` over
the characters, starting from no headers, registering `A` and then `a`
with `unique = True` leaves exactly one entry for that name. -/
theorem header_unique_case_insensitive_witness :
    countNameWith (List.map Char.toLower) ['a']
      ((headerWith (List.map Char.toLower) (PyValue.str ['a']) (PyValue.str ['w'])
        (PyValue.bool true)
        ((headerWith (List.map Char.toLower) (PyValue.str ['A']) (PyValue.str ['v'])
          (PyValue.bool true) []).2)).2) = 1 :=
  (header_unique_case_insensitive (List.map Char.toLower) ['A'] (PyValue.str ['v']) []
    (fun p hp => absurd hp (List.not_mem_nil p)) rfl rfl rfl).2
    ['a'] (PyValue.str ['w']) (by decide) rfl rfl rfl rfl

/-- Identity of a thread of control. -/
abbrev TId : Type := Nat

/-- The state of one `ThreadedDict` handle, following the design note of
the spec: an explicit map keyed by thread identity.  `st t` is the
private `self.__dict__` the `threading.local` base class presents to
thread `t`. -/
def TDState : Type := TId → SMap

/-- The `dict`-emulating operations `ThreadedDict` defines, each of
which the source implements directly on `self.__dict__`. -/
inductive TDOp where
  | getitem (k : List Char)
  | setitem (k : List Char) (v : PyValue)
  | delitem (k : List Char)
  | contains (k : List Char)
  | clear
  | copy
  | get (k : List Char) (default : PyValue)
  | items
  | keys
  | values
  | pop (k : List Char) (default : Option PyValue)
  | popitem
  | setdefault (k : List Char) (default : PyValue)
  | update (pairs : List (List Char × PyValue))

/-- The observable outcome of a `ThreadedDict` operation. -/
inductive TDRes where
  | val (v : PyValue)
  | boolR (b : Bool)
  | mapR (m : SMap)
  | pairsR (l : List (List Char × PyValue))
  | keysR (l : List (List Char))
  | valsR (l : List PyValue)
  | pairR (p : List Char × PyValue)
  | noneR
  | err (e : PyError)

/-- Semantics of one operation on one thread's private dictionary `d`,
returning the new dictionary and the result.  `popitem` removes the most
recently inserted entry (Python dicts are insertion-ordered and
`popitem` is LIFO; on an empty dict Python raises a `KeyError` whose
argument is a message, modelled with an empty key). -/
def TDOp.run : TDOp → SMap → SMap × TDRes
  | TDOp.getitem k, d =>
      match alookup d k with
      | Option.some v => (d, TDRes.val v)
      | Option.none => (d, TDRes.err (PyError.keyError k))
  | TDOp.setitem k v, d => (aupdate d k v, TDRes.noneR)
  | TDOp.delitem k, d =>
      match alookup d k with
      | Option.some _ => (aerase d k, TDRes.noneR)
      | Option.none => (d, TDRes.err (PyError.keyError k))
  | TDOp.contains k, d => (d, TDRes.boolR (alookup d k).isSome)
  | TDOp.clear, _ => ([], TDRes.noneR)
  | TDOp.copy, d => (d, TDRes.mapR d)
  | TDOp.get k default, d => (d, TDRes.val ((alookup d k).getD default))
  | TDOp.items, d => (d, TDRes.pairsR d)
  | TDOp.keys, d => (d, TDRes.keysR (d.map Prod.fst))
  | TDOp.values, d => (d, TDRes.valsR (d.map Prod.snd))
  | TDOp.pop k default, d =>
      match alookup d k with
      | Option.some v => (aerase d k, TDRes.val v)
      | Option.none =>
          match default with
          | Option.some dv => (d, TDRes.val dv)
          | Option.none => (d, TDRes.err (PyError.keyError k))
  | TDOp.popitem, d =>
      match d.getLast? with
      | Option.some p => (d.dropLast, TDRes.pairR p)
      | Option.none => (d, TDRes.err (PyError.keyError []))
  | TDOp.setdefault k default, d =>
      match alookup d k with
      | Option.some v => (d, TDRes.val v)
      | Option.none => (aupdate d k default, TDRes.val default)
  | TDOp.update pairs, d =>
      (pairs.foldl (fun acc p => aupdate acc p.1 p.2) d, TDRes.noneR)

/-- A `ThreadedDict` operation as performed by thread `t` on a shared
handle: it runs on `st t`, the calling thread's private dictionary, and
replaces only that slice of the state. -/
def ThreadedDict.run (op : TDOp) (t : TId) (st : TDState) : TDState × TDRes :=
  let r := op.run (st t)
  (fun t' => if t' = t then r.1 else st t', r.2)

/-- C9: every `ThreadedDict` operation by one thread touches only that
thread's private slice — other threads' slices are untouched, the
outcome depends only on the calling thread's slice — and in particular
when thread A stores `x = 1` and thread B stores `x = 2` on the same
handle, A still reads back `1` and B reads back `2`. -/
theorem threadeddict_isolation :
    (∀ (op : TDOp) (t t2 : TId) (st : TDState), t2 ≠ t →
      (ThreadedDict.run op t st).1 t2 = st t2)
    ∧ (∀ (op : TDOp) (t : TId) (st st2 : TDState), st t = st2 t →
      (ThreadedDict.run op t st).2 = (ThreadedDict.run op t st2).2
      ∧ (ThreadedDict.run op t st).1 t = (ThreadedDict.run op t st2).1 t)
    ∧ (∀ (t1 t2 : TId) (k : List Char) (v1 v2 : PyValue) (st : TDState), t1 ≠ t2 →
      ((TDOp.getitem k).run
        (((ThreadedDict.run (TDOp.setitem k v2) t2
          ((ThreadedDict.run (TDOp.setitem k v1) t1 st).1)).1) t1)).2 = TDRes.val v1
      ∧ ((TDOp.getitem k).run
        (((ThreadedDict.run (TDOp.setitem k v2) t2
          ((ThreadedDict.run (TDOp.setitem k v1) t1 st).1)).1) t2)).2 = TDRes.val v2) := by
  refine ⟨fun op t t2 st h => ?_, fun op t st st2 h => ?_, fun t1 t2 k v1 v2 st h => ?_⟩
  · simp [ThreadedDict.run, h]
  · constructor
    · simp [ThreadedDict.run, h]
    · simp [ThreadedDict.run, h]
  · have h21 : t2 ≠ t1 := fun hx => h hx.symm
    constructor
    · have hslice :
          (((ThreadedDict.run (TDOp.setitem k v2) t2
            ((ThreadedDict.run (TDOp.setitem k v1) t1 st).1)).1) t1) =
          aupdate (st t1) k v1 := by
        simp [ThreadedDict.run, TDOp.run, h, h21]
      rw [hslice]
      simp [TDOp.run, alookup_aupdate_self]
    · have hslice :
          (((ThreadedDict.run (TDOp.setitem k v2) t2
            ((ThreadedDict.run (TDOp.setitem k v1) t1 st).1)).1) t2) =
          aupdate (((ThreadedDict.run (TDOp.setitem k v1) t1 st).1) t2) k v2 := by
        simp [ThreadedDict.run, TDOp.run, h21]
      rw [hslice]
      simp [TDOp.run, alookup_aupdate_self]

/-- C9 witness: the concrete two-thread scenario of the spec (thread 0
writes `x = 1`, thread 1 writes `x = 2`, each reads back its own value)
and the frame property of a write at a state with empty slices. -/
theorem threadeddict_isolation_witness :
    (((TDOp.getitem ['x']).run
      (((ThreadedDict.run (TDOp.setitem ['x'] (PyValue.int 2)) 1
        ((ThreadedDict.run (TDOp.setitem ['x'] (PyValue.int 1)) 0 (fun _ => [])).1)).1) 0)).2 =
          TDRes.val (PyValue.int 1)
      ∧ ((TDOp.getitem ['x']).run
        (((ThreadedDict.run (TDOp.setitem ['x'] (PyValue.int 2)) 1
          ((ThreadedDict.run (TDOp.setitem ['x'] (PyValue.int 1)) 0 (fun _ => [])).1)).1) 1)).2 =
            TDRes.val (PyValue.int 2))
    ∧ (ThreadedDict.run (TDOp.setitem ['x'] (PyValue.int 1)) 0 (fun _ => [])).1 1 = [] :=
  ⟨threadeddict_isolation.2.2 0 1 ['x'] (PyValue.int 1) (PyValue.int 2) (fun _ => [])
     (by decide),
   threadeddict_isolation.1 (TDOp.setitem ['x'] (PyValue.int 1)) 0 1 (fun _ => [])
     (by decide)⟩

/-- The state of a `Memoize` wrapper: the wrapped callable (modelled as
a state-passing function so that its side effects and failures are
observable: on argument key `k` and world state `s` it returns the new
world state and either a result or a raised exception), the cache
mapping an argument key to a `(result, timestamp)` pair, the `expires`
parameter and the `background` flag.  The source also holds the per-key
`running` locks and the `running_lock`; in this sequential single-caller
model every lock acquisition succeeds, so they carry no state. -/
structure Memoize (κ ε σ α : Type) where
  func : κ → σ → σ × Except ε α
  cache : List (κ × α × Nat)
  expires : Option Nat
  background : Bool

/-- The expiry test
`self.expires and (time.time() - self.cache[key][1]) > self.expires`:
Python truthiness makes both `None` and `0` skip the comparison. -/
def expCheck (expires : Option Nat) (t now : Nat) : Bool :=
  match expires with
  | Option.none => false
  | Option.some e => if e = 0 then false else decide (now - t > e)

/-- `Memoize.__call__` in the sequential single-caller model.  Cache
miss: `update(block=True)` invokes the callable; on success the result
is stored with the current time and returned, while an exception
propagates before `self.cache[key]` is assigned, leaving the cache
unchanged.  Cache hit with the entry expired: in background mode a
refresh thread is started and the caller immediately returns the
currently cached value (the refresh completes outside this sequential
step); in synchronous mode `update()` runs in-line and the refreshed
`self.cache[key][0]` is returned.  Cache hit otherwise: the cached value
is returned with no locking. -/
def Memoize.call {κ ε σ α : Type} [DecidableEq κ] (m : Memoize κ ε σ α)
    (k : κ) (s : σ) (now : Nat) : σ × Memoize κ ε σ α × Except ε α :=
  match alookup m.cache k with
  | Option.none =>
      match m.func k s with
      | (s', Except.error e) => (s', m, Except.error e)
      | (s', Except.ok a) =>
          (s', { m with cache := aupdate m.cache k (a, now) }, Except.ok a)
  | Option.some (a, t) =>
      if expCheck m.expires t now then
        if m.background then
          (s, m, Except.ok a)
        else
          match m.func k s with
          | (s', Except.error e) => (s', m, Except.error e)
          | (s', Except.ok a2) =>
              (s', { m with cache := aupdate m.cache k (a2, now) }, Except.ok a2)
      else (s, m, Except.ok a)

/-- C4: with no expiry configured, the first call on a fresh key invokes
the wrapped callable exactly once (the world state advances by exactly
one application) and stores the result; every subsequent call with the
same key returns that identical stored result and leaves the world
state untouched — the callable is not invoked again. -/
theorem memoize_no_expiry_caches {κ ε σ α : Type} [DecidableEq κ]
    (m : Memoize κ ε σ α) (k : κ) (s s' : σ) (a : α) (now : Nat)
    (hexp : m.expires = Option.none)
    (hmiss : alookup m.cache k = Option.none)
    (hf : m.func k s = (s', Except.ok a)) :
    m.call k s now =
      (s', { m with cache := aupdate m.cache k (a, now) }, Except.ok a)
    ∧ (∀ (s2 : σ) (now2 : Nat),
        ({ m with cache := aupdate m.cache k (a, now) } : Memoize κ ε σ α).call k s2 now2 =
          (s2, { m with cache := aupdate m.cache k (a, now) }, Except.ok a)) := by
  constructor
  · simp [Memoize.call, hmiss, hf]
  · intro s2 now2
    simp [Memoize.call, alookup_aupdate_self, hexp, expCheck]

/-- A call counter: each invocation returns the incremented counter. -/
def counterFunc : Unit → Nat → Nat × Except Unit Nat :=
  fun _ s => (s + 1, Except.ok (s + 1))

/-- A fresh memoization of `counterFunc` with no expiry. -/
def counterMemo : Memoize Unit Unit Nat Nat :=
  ⟨counterFunc, [], Option.none, true⟩

/-- C4 witness: memoizing the call counter — the first call computes and
caches `1`; the second call returns the cached `1` without bumping the
counter. -/
theorem memoize_no_expiry_caches_witness :
    counterMemo.call () 0 5 =
      (1, { counterMemo with cache := aupdate counterMemo.cache () (1, 5) }, Except.ok 1)
    ∧ ({ counterMemo with cache := aupdate counterMemo.cache () (1, 5) } :
        Memoize Unit Unit Nat Nat).call () 7 9 =
      (7, { counterMemo with cache := aupdate counterMemo.cache () (1, 5) }, Except.ok 1) :=
  have h := memoize_no_expiry_caches counterMemo () 0 1 1 5 rfl rfl rfl
  ⟨h.1, h.2 7 9⟩

/-- C7: when the wrapped callable raises on an initial cache-miss call,
the failure propagates unchanged and the cache is not modified; the next
call with the same key invokes the callable again from scratch, and its
fresh outcome (success, which is then cached, or another failure)
determines that call's result. -/
theorem memoize_error_not_cached {κ ε σ α : Type} [DecidableEq κ]
    (m : Memoize κ ε σ α) (k : κ) (s s' : σ) (e : ε) (now : Nat)
    (hmiss : alookup m.cache k = Option.none)
    (hf : m.func k s = (s', Except.error e)) :
    m.call k s now = (s', m, Except.error e)
    ∧ (∀ (s2 : σ) (now2 : Nat) (s3 : σ) (a : α),
        m.func k s2 = (s3, Except.ok a) →
        m.call k s2 now2 =
          (s3, { m with cache := aupdate m.cache k (a, now2) }, Except.ok a))
    ∧ (∀ (s2 : σ) (now2 : Nat) (s3 : σ) (e2 : ε),
        m.func k s2 = (s3, Except.error e2) →
        m.call k s2 now2 = (s3, m, Except.error e2)) := by
  refine ⟨?_, fun s2 now2 s3 a hf2 => ?_, fun s2 now2 s3 e2 hf2 => ?_⟩
  · simp [Memoize.call, hmiss, hf]
  · simp [Memoize.call, hmiss, hf2]
  · simp [Memoize.call, hmiss, hf2]

/-- A callable that raises on its first invocation (counter at `0`) and
succeeds afterwards. -/
def flakyFunc : Unit → Nat → Nat × Except Unit Nat :=
  fun _ s => (s + 1, if s = 0 then Except.error () else Except.ok s)

/-- A fresh memoization of `flakyFunc` with no expiry. -/
def flakyMemo : Memoize Unit Unit Nat Nat :=
  ⟨flakyFunc, [], Option.none, true⟩

/-- C7 witness: the first call fails and caches nothing; the retry
invokes the callable again, succeeds, and caches the fresh result. -/
theorem memoize_error_not_cached_witness :
    flakyMemo.call () 0 5 = (1, flakyMemo, Except.error ())
    ∧ flakyMemo.call () 1 9 =
      (2, { flakyMemo with cache := aupdate flakyMemo.cache () (1, 9) }, Except.ok 1) :=
  have h := memoize_error_not_cached flakyMemo () 0 1 () 5 rfl rfl
  ⟨h.1, h.2.1 1 9 2 1 rfl⟩

end Templator
